import Mathlib

/-!
Verification of the taxoniq query library (`src/taxoniq/__init__.py`,
`src/taxoniq/util.py`) against its natural-language specification.

The Python code is shallowly embedded: strings become `List Char`, byte
strings become `List Nat` (each entry below 256 where it matters), raised
exceptions become an `Except PyErr` result, and the on-disk trie databases
become explicit function arguments (`Nat → Option _` for a keyed lookup).
The unbounded `while` loop of `Taxon.lineage` is embedded as a fuel-indexed
recursion: a `none` result means the loop did not finish within the given
fuel (or a trie lookup inside the loop failed), and a `some` result is the
value the Python loop returns after at most that many iterations.

Definitions come first, then the theorems.
-/

namespace Taxoniq

/-- Exceptions raised by the Python code paths modelled here.
`KeyError` is what a `marisa_trie.RecordTrie` lookup raises on a missing
key, `NoValue` is taxoniq's own "attribute absent" exception (a subclass of
`TaxoniqException`, *not* of `KeyError`), and `ValueError` is what
`bytes.index` raises when the separator is absent. -/
inductive PyErr where
  | KeyError
  | NoValue
  | ValueError
deriving DecidableEq, Repr

instance {e a : Type} [DecidableEq e] [DecidableEq a] : DecidableEq (Except e a) := fun
  | .error x, .error y =>
    if h : x = y then .isTrue (by rw [h])
    else .isFalse (by intro hh; injection hh; exact h (by assumption))
  | .error _, .ok _ => .isFalse (fun hh => Except.noConfusion hh)
  | .ok _, .error _ => .isFalse (fun hh => Except.noConfusion hh)
  | .ok x, .ok y =>
    if h : x = y then .isTrue (by rw [h])
    else .isFalse (by intro hh; injection hh; exact h (by assumption))

/-! ## Accession id packing (`Accession._pack_id`, `Accession.__eq__`) -/

/-- Embeds `str.endswith` for a literal suffix (the only use here is
`accession_id.endswith(".1")`). -/
def pyEndsWith (s suffix : List Char) : Bool :=
  suffix.isSuffixOf s

/-- Embeds `Accession._pack_id`:

    if accession_id.endswith(".1"):
        accession_id = accession_id[: -len(".1")]
    accession_id = accession_id.replace("_", "")

`s[:-2]` keeps all but the last two characters; `replace("_", "")` deletes
every underscore. -/
def pack_id (s : List Char) : List Char :=
  (if pyEndsWith s ['.', '1'] then s.take (s.length - 2) else s).filter (fun c => c ≠ '_')

/-- The in-memory fields of a Python `Accession` object that matter for
identity: the raw id the constructor received and the packed trie key. -/
structure Accession where
  accession_id : List Char
  packed_id : List Char
deriving DecidableEq, Repr

/-- Embeds `Accession.__init__`: stores the raw `accession_id` unchanged and
its packed form. -/
def Accession.new (accession_id : List Char) : Accession :=
  ⟨accession_id, pack_id accession_id⟩

/-- Embeds `Accession.__eq__`: `self.accession_id == other.accession_id`
(the packed key plays no part). -/
def Accession.eq (a b : Accession) : Bool :=
  a.accession_id == b.accession_id

/-! ## String attributes (`Taxon._get_str_attr`, `description`, `host`) -/

/-- One per-attribute database: the position trie (`<attr>_pos`, keyed by
`str(tax_id)`) and the decompressed newline-delimited string blob. -/
structure StrAttrDb where
  pos : Nat → Option Nat
  blob : List Char

/-- Embeds `Taxon._get_str_attr` for one attribute database: a missing key
in the position trie raises `KeyError`, which the method catches and
converts to `NoValue`; otherwise the result is the blob slice from the
stored offset up to the next newline (`bytes.index` raising `ValueError`
if the blob has no newline there). -/
def get_str_attr (db : StrAttrDb) (tax_id : Nat) : Except PyErr (List Char) :=
  match db.pos tax_id with
  | none => .error .NoValue
  | some p =>
    match (db.blob.drop p).findIdx? (fun c => c = '\n') with
    | none => .error .ValueError
    | some j => .ok ((db.blob.drop p).take j)

/-- Embeds `Taxon.description`:

    try:
        return self._get_str_attr("description")
    except KeyError:
        return ""

Only a `KeyError` is caught; every other exception propagates. -/
def description (db : StrAttrDb) (tax_id : Nat) : Except PyErr (List Char) :=
  match get_str_attr db tax_id with
  | .error .KeyError => .ok []
  | r => r

/-- Embeds `Taxon.host`: `self._get_str_attr("host").split(",")`, with no
exception handling of its own. `List.splitOn` matches Python `str.split`
with an explicit separator (never merges, `"".split(",") == [""]`). -/
def host (db : StrAttrDb) (tax_id : Nat) : Except PyErr (List (List Char)) :=
  (get_str_attr db tax_id).map (fun s => s.splitOn ',')

/-- An attribute database with no entries: every taxon lacks the attribute. -/
def emptyAttrDb : StrAttrDb := ⟨fun _ => none, []⟩

/-- An attribute database in which taxon 7 has the host string
`"bacteria,vertebrates"`. -/
def hostAttrDb : StrAttrDb :=
  ⟨fun t => if t = 7 then some 0 else none, "bacteria,vertebrates\n".toList⟩

/-! ## Taxa records, `Taxon.__init__`, `Taxon.parent`, `Taxon.lineage` -/

/-- The fixed `IBBB` record stored per tax_id in the `taxa` trie, unpacked in
`Taxon.__init__` as `(self._parent, rank, self.division_id,
self.specified_species)`. -/
structure TaxonRec where
  parent : Nat
  rank : Nat
  division_id : Nat
  specified_species : Nat
deriving DecidableEq, Repr

/-- The `taxa` trie: `str(tax_id)` → record, or a `KeyError` (`none`). -/
def TaxaDb := Nat → Option TaxonRec

/-- The fields of a constructed Python `Taxon` used by `parent` and
`lineage`: its id and the stored parent pointer `_parent`. -/
structure Taxon where
  tax_id : Nat
  parentId : Nat
deriving DecidableEq, Repr

/-- Embeds `Taxon.__init__(tax_id=...)`: looks the id up in the `taxa` trie
(raising `KeyError` when absent) and keeps the parent pointer. -/
def Taxon.new (taxa : TaxaDb) (tax_id : Nat) : Except PyErr Taxon :=
  match taxa tax_id with
  | none => .error .KeyError
  | some r => .ok ⟨tax_id, r.parent⟩

/-- Embeds the `Taxon.parent` property:

    if self.tax_id == 0:
        return None
    else:
        return Taxon(self._parent)
-/
def Taxon.parentOf (taxa : TaxaDb) (t : Taxon) : Except PyErr (Option Taxon) :=
  if t.tax_id = 0 then .ok none
  else (Taxon.new taxa t.parentId).map some

/-- Reading the parent pointer of a tax_id from the `taxa` trie, which is
what `Taxon.lineage` does through `Taxon(lineage[-1]._parent)._parent`. -/
def parentPtr (taxa : TaxaDb) : Nat → Option Nat :=
  fun t => (taxa t).map TaxonRec.parent

/-- Embeds the `Taxon.lineage` property:

    lineage = [self]
    while lineage[-1].tax_id != 1:
        lineage.append(Taxon(lineage[-1]._parent))
    return lineage

as a fuel-indexed recursion over tax_ids. `fuel` bounds the number of loop
iterations inspected: `none` means the loop has not returned within `fuel`
iterations (or a parent lookup raised), `some l` is the returned list.
The source has no step bound of its own. -/
def lineage (parent : Nat → Option Nat) : Nat → Nat → Option (List Nat)
  | 0, t => if t = 1 then some [t] else none
  | fuel + 1, t =>
    if t = 1 then some [t]
    else
      match parent t with
      | none => none
      | some p =>
        match lineage parent fuel p with
        | none => none
        | some rest => some (t :: rest)

/-- A malformed taxa table with a two-node parent cycle 2 ↔ 3 beside the
root: following parents from 2 never reaches tax_id 1. -/
def cycTaxa : TaxaDb := fun t =>
  if t = 1 then some ⟨1, 0, 0, 0⟩
  else if t = 2 then some ⟨3, 0, 0, 0⟩
  else if t = 3 then some ⟨2, 0, 0, 0⟩
  else none

/-- A linear taxa table: every tax_id above 1 has parent one less than
itself; tax_id 1 is the root (whose stored parent is itself, as in the NCBI
dump). Taxon t needs exactly t - 1 parent steps to reach the root. -/
def chainTaxa : TaxaDb := fun t =>
  if t = 1 then some ⟨1, 0, 0, 0⟩ else some ⟨t - 1, 0, 0, 0⟩

/-- A minimal well-formed table containing only the root, whose stored
parent pointer is 1 (itself), with the `no_rank` rank code. -/
def rootTaxaDb : TaxaDb := fun t => if t = 1 then some ⟨1, 45, 8, 0⟩ else none

/-- A small well-formed table: 5 → 3 → 1. -/
def sampleTaxa : TaxaDb := fun t =>
  if t = 1 then some ⟨1, 0, 0, 0⟩
  else if t = 3 then some ⟨1, 0, 0, 0⟩
  else if t = 5 then some ⟨3, 0, 0, 0⟩
  else none

/-! ## NcbiNa2 streaming decoder (`taxoniq/util.py`) -/

/-- Embeds the `twobit2ascii` dictionary `{0: b"A", 1: b"C", 2: b"G",
3: b"T"}`; its argument is always masked with `0x3`. -/
def twobit2ascii (n : Nat) : Char :=
  match n with
  | 0 => 'A'
  | 1 => 'C'
  | 2 => 'G'
  | _ => 'T'

/-- Embeds `byte_to_bases`: splits a byte into its four 2-bit fields,
most significant first, and maps each through `twobit2ascii`. -/
def byte_to_bases (x : Nat) : List Char :=
  let c := (x >>> 4) &&& 0xF
  let f := x &&& 0xF
  let cc := (c >>> 2) &&& 0x3
  let cf := c &&& 0x3
  let fc := (f >>> 2) &&& 0x3
  let ff := f &&& 0x3
  [twobit2ascii cc, twobit2ascii cf, twobit2ascii fc, twobit2ascii ff]

/-- State of `NcbiNa2Decoder`: the declared sequence length in bases and the
count of bases already emitted. -/
structure NcbiNa2Decoder where
  length : Nat
  bases_seen : Nat
deriving DecidableEq, Repr

/-- Embeds `NcbiNa2Decoder.__init__(length)`. -/
def NcbiNa2Decoder.init (length : Nat) : NcbiNa2Decoder := ⟨length, 0⟩

/-- Python slice `l[:n]` for a possibly negative bound, as used by
`seq[: self.length - self.bases_seen]`. -/
def pySliceTo {α : Type} (l : List α) (n : Int) : List α :=
  if n < 0 then l.take (l.length - n.natAbs) else l.take n.toNat

/-- Embeds `NcbiNa2Decoder.decompress`: expand every input byte to its four
bases, truncate with `seq[: self.length - self.bases_seen]` whenever the
total would exceed `length`, and add the emitted count to `bases_seen`. -/
def NcbiNa2Decoder.decompress (st : NcbiNa2Decoder) (data : List Nat) :
    NcbiNa2Decoder × List Char :=
  let seq := data.flatMap byte_to_bases
  let out := if seq.length + st.bases_seen > st.length
             then pySliceTo seq ((st.length : Int) - (st.bases_seen : Int))
             else seq
  (⟨st.length, st.bases_seen + out.length⟩, out)

/-- Embeds `NcbiNa2Decoder.flush`: always the empty byte string. -/
def NcbiNa2Decoder.flush (_ : NcbiNa2Decoder) : List Char := []

/-- Feeds a sequence of chunks through `decompress` calls, concatenating
the outputs, as the urllib3 response machinery does with a stream. -/
def runDecoder : NcbiNa2Decoder → List (List Nat) → NcbiNa2Decoder × List Char
  | st, [] => (st, [])
  | st, c :: cs =>
    let r := st.decompress c
    let rest := runDecoder r.1 cs
    (rest.1, r.2 ++ rest.2)

/-- `True` exactly on the four nucleotide letters. -/
def isBase (c : Char) : Bool :=
  c = 'A' || c = 'C' || c = 'G' || c = 'T'

/-- Modelled from the spec: taxoniq ships no NcbiNa2 *encoder*; section 4.6
fixes the encoding as 2-bit values 0=A, 1=C, 2=G, 3=T. -/
def base2bit (c : Char) : Nat :=
  if c = 'C' then 1 else if c = 'G' then 2 else if c = 'T' then 3 else 0

/-- Modelled from the spec: one packed byte holding four bases,
most-significant pair first. -/
def byteOf (a b c d : Char) : Nat :=
  64 * base2bit a + 16 * base2bit b + 4 * base2bit c + base2bit d

/-- Modelled from the spec: pack a base sequence four bases per byte,
most-significant pair first, padding the final partial byte (with 0 = A). -/
def encode : List Char → List Nat
  | [] => []
  | [a] => [byteOf a 'A' 'A' 'A']
  | [a, b] => [byteOf a b 'A' 'A']
  | [a, b, c] => [byteOf a b c 'A']
  | a :: b :: c :: d :: rest => byteOf a b c d :: encode rest

/-! ## Remote range fetch header (`Accession.get_from_s3`) -/

/-- Embeds the header construction in `Accession.get_from_s3`:

    headers = \x7b"Range": f"bytes=\x7bself.db_offset\x7d-\x7bself.db_offset + (self.length // 4)\x7d"\x7d
-/
def get_from_s3_range_header (db_offset length : Nat) : String :=
  "bytes=" ++ toString db_offset ++ "-" ++ toString (db_offset + length / 4)

/-- Modelled from the spec: "The byte range requested is
`bytes=<offset>-<offset + length/4>` (integer division, inclusive)." -/
def spec_range_header (offset length : Nat) : String :=
  "bytes=" ++ toString offset ++ "-" ++ toString (offset + length / 4)

/-! ## Helper lemmas -/

theorem pack_id_no_underscore (s : List Char) :
    ∀ c ∈ pack_id s, (decide (c ≠ '_')) = true := by
  intro c hc
  unfold pack_id at hc
  simp only [List.mem_filter] at hc
  exact hc.2

theorem pack_id_idem_aux (s : List Char) (h : pyEndsWith (pack_id s) ['.', '1'] = false) :
    pack_id (pack_id s) = pack_id s := by
  have hmem := pack_id_no_underscore s
  set t := pack_id s with ht
  unfold pack_id
  rw [h]
  rw [if_neg (by decide)]
  exact List.filter_eq_self.mpr hmem

theorem lineage_walk_spec (parent : Nat → Option Nat) :
    ∀ (fuel T : Nat) (l : List Nat), lineage parent fuel T = some l →
      l.head? = some T ∧ l.getLast? = some 1 ∧
        List.Chain' (fun a b => parent a = some b) l := by
  intro fuel
  induction fuel with
  | zero =>
    intro T l h
    unfold lineage at h
    split at h
    · next hT =>
      cases h
      subst hT
      exact ⟨rfl, rfl, List.chain'_singleton _⟩
    · exact absurd h (by simp)
  | succ n ih =>
    intro T l h
    unfold lineage at h
    split at h
    · next hT =>
      cases h
      subst hT
      exact ⟨rfl, rfl, List.chain'_singleton _⟩
    · next hT =>
      split at h
      · exact absurd h (by simp)
      · next p hp =>
        split at h
        · exact absurd h (by simp)
        · next rest hr =>
          cases h
          obtain ⟨h1, h2, h3⟩ := ih p rest hr
          cases rest with
          | nil => simp at h1
          | cons r rs =>
            simp only [List.head?_cons, Option.some_inj] at h1
            subst h1
            refine ⟨rfl, ?_, ?_⟩
            · simpa [List.getLast?_cons_cons] using h2
            · exact List.Chain'.cons hp h3

theorem lineage_cyc (fuel : Nat) :
    lineage (parentPtr cycTaxa) fuel 2 = none ∧
      lineage (parentPtr cycTaxa) fuel 3 = none := by
  induction fuel with
  | zero => exact ⟨rfl, rfl⟩
  | succ n ih =>
    constructor
    · show lineage _ (n + 1) 2 = none
      unfold lineage
      rw [if_neg (by decide)]
      simp only [show parentPtr cycTaxa 2 = some 3 from rfl, ih.2]
    · show lineage _ (n + 1) 3 = none
      unfold lineage
      rw [if_neg (by decide)]
      simp only [show parentPtr cycTaxa 3 = some 2 from rfl, ih.1]

theorem lineage_root (parent : Nat → Option Nat) (fuel : Nat) :
    lineage parent fuel 1 = some [1] := by
  cases fuel <;> rfl

theorem lineage_chain (t : Nat) (ht : 1 ≤ t) :
    ∀ fuel, t - 1 ≤ fuel →
      ∃ l, lineage (parentPtr chainTaxa) fuel t = some l ∧ l.length = t := by
  induction t with
  | zero => intro fuel _; exact absurd ht (by omega)
  | succ n ih =>
    intro fuel hf
    rcases Nat.eq_zero_or_pos n with hn | hn
    · subst hn
      exact ⟨[1], lineage_root _ fuel, rfl⟩
    · cases fuel with
      | zero => exact absurd hf (by omega)
      | succ f =>
        obtain ⟨l, hl, hlen⟩ := ih (by omega) f (by omega)
        refine ⟨(n + 1) :: l, ?_, by simp [hlen]⟩
        show lineage _ (f + 1) (n + 1) = some ((n + 1) :: l)
        unfold lineage
        rw [if_neg (by omega)]
        have hp : parentPtr chainTaxa (n + 1) = some n := by
          simp only [parentPtr, chainTaxa]
          rw [if_neg (by omega)]
          rfl
        simp only [hp, hl]

theorem decompress_snd (st : NcbiNa2Decoder) (data : List Nat)
    (h : st.bases_seen ≤ st.length) :
    (st.decompress data).2 = (data.flatMap byte_to_bases).take (st.length - st.bases_seen) := by
  unfold NcbiNa2Decoder.decompress
  set seq := data.flatMap byte_to_bases with hseq
  by_cases hgt : seq.length + st.bases_seen > st.length
  · simp only [hgt, if_true]
    unfold pySliceTo
    rw [if_neg (by omega)]
    congr 1
    omega
  · simp only [hgt, if_false]
    exact (List.take_of_length_le (by omega)).symm

theorem decompress_fst_length (st : NcbiNa2Decoder) (data : List Nat) :
    (st.decompress data).1.length = st.length := rfl

theorem decompress_fst_seen (st : NcbiNa2Decoder) (data : List Nat) :
    (st.decompress data).1.bases_seen = st.bases_seen + (st.decompress data).2.length := rfl

theorem decompress_seen_le (st : NcbiNa2Decoder) (data : List Nat)
    (h : st.bases_seen ≤ st.length) :
    (st.decompress data).1.bases_seen ≤ st.length := by
  rw [decompress_fst_seen, decompress_snd st data h]
  have := List.length_take (st.length - st.bases_seen) (data.flatMap byte_to_bases)
  omega

theorem runDecoder_spec (chunks : List (List Nat)) :
    ∀ st : NcbiNa2Decoder, st.bases_seen ≤ st.length →
      (runDecoder st chunks).2 =
          ((chunks.flatten).flatMap byte_to_bases).take (st.length - st.bases_seen) ∧
      (runDecoder st chunks).1.length = st.length ∧
      (runDecoder st chunks).1.bases_seen =
          st.bases_seen + ((runDecoder st chunks).2).length ∧
      (runDecoder st chunks).1.bases_seen ≤ st.length := by
  induction chunks with
  | nil =>
    intro st h
    exact ⟨by simp [runDecoder], rfl, rfl, h⟩
  | cons c cs ih =>
    intro st h
    have h1 : (st.decompress c).1.bases_seen ≤ (st.decompress c).1.length := by
      rw [decompress_fst_length]
      exact decompress_seen_le st c h
    obtain ⟨ih1, ih2, ih3, ih4⟩ := ih (st.decompress c).1 h1
    have hrun : runDecoder st (c :: cs) =
        ((runDecoder (st.decompress c).1 cs).1,
          (st.decompress c).2 ++ (runDecoder (st.decompress c).1 cs).2) := rfl
    rw [decompress_fst_length] at ih1 ih2 ih4
    have hout : (st.decompress c).2 = (c.flatMap byte_to_bases).take (st.length - st.bases_seen) :=
      decompress_snd st c h
    have hseen : (st.decompress c).1.bases_seen = st.bases_seen + (st.decompress c).2.length :=
      decompress_fst_seen st c
    have hlen_take := List.length_take (st.length - st.bases_seen) (c.flatMap byte_to_bases)
    refine ⟨?_, ?_, ?_, ?_⟩
    · rw [hrun]
      show (st.decompress c).2 ++ (runDecoder (st.decompress c).1 cs).2 = _
      rw [ih1, hout, List.flatten_cons, List.flatMap_append, List.take_append_eq_append_take]
      congr 2
      rw [hout] at hseen
      omega
    · rw [hrun]; exact ih2
    · rw [hrun]
      show (runDecoder (st.decompress c).1 cs).1.bases_seen =
        st.bases_seen + ((st.decompress c).2 ++ (runDecoder (st.decompress c).1 cs).2).length
      rw [ih3, hseen, List.length_append]
      omega
    · rw [hrun]; exact ih4

theorem base2bit_lt (c : Char) : base2bit c < 4 := by
  unfold base2bit
  split_ifs <;> decide

theorem twobit2ascii_base2bit (c : Char) (h : isBase c = true) :
    twobit2ascii (base2bit c) = c := by
  simp only [isBase, Bool.or_eq_true, decide_eq_true_eq] at h
  rcases h with ((h | h) | h) | h <;> subst h <;> rfl

theorem byte_to_bases_pack :
    ∀ va < 4, ∀ vb < 4, ∀ vc < 4, ∀ vd < 4,
      byte_to_bases (64 * va + 16 * vb + 4 * vc + vd) =
        [twobit2ascii va, twobit2ascii vb, twobit2ascii vc, twobit2ascii vd] := by
  decide

theorem byte_to_bases_byteOf (a b c d : Char)
    (ha : isBase a = true) (hb : isBase b = true) (hc : isBase c = true) (hd : isBase d = true) :
    byte_to_bases (byteOf a b c d) = [a, b, c, d] := by
  unfold byteOf
  rw [byte_to_bases_pack _ (base2bit_lt a) _ (base2bit_lt b) _ (base2bit_lt c) _ (base2bit_lt d)]
  rw [twobit2ascii_base2bit a ha, twobit2ascii_base2bit b hb,
      twobit2ascii_base2bit c hc, twobit2ascii_base2bit d hd]

theorem flatMap_encode (B : List Char) (h : B.all isBase = true) :
    (encode B).flatMap byte_to_bases = B ++ List.replicate ((4 - B.length % 4) % 4) 'A' := by
  induction B using encode.induct with
  | case1 => rfl
  | case2 a =>
    simp only [List.all_cons, List.all_nil, Bool.and_true] at h
    simp [encode, byte_to_bases_byteOf a 'A' 'A' 'A' h rfl rfl rfl, List.replicate]
  | case3 a b =>
    simp only [List.all_cons, List.all_nil, Bool.and_eq_true, Bool.and_true] at h
    simp [encode, byte_to_bases_byteOf a b 'A' 'A' h.1 h.2 rfl rfl, List.replicate]
  | case4 a b c =>
    simp only [List.all_cons, List.all_nil, Bool.and_eq_true, Bool.and_true] at h
    simp [encode, byte_to_bases_byteOf a b c 'A' h.1 h.2.1 h.2.2 rfl, List.replicate]
  | case5 a b c d rest ih =>
    simp only [List.all_cons, Bool.and_eq_true] at h
    obtain ⟨ha, hb, hc, hd, hrest⟩ := h
    have hmod : (4 - (a :: b :: c :: d :: rest).length % 4) % 4 = (4 - rest.length % 4) % 4 := by
      simp only [List.length_cons]
      omega
    rw [hmod]
    show byte_to_bases (byteOf a b c d) ++ (encode rest).flatMap byte_to_bases = _
    rw [byte_to_bases_byteOf a b c d ha hb hc hd, ih hrest]
    simp

/-! ## Claim theorems -/

/-- C1 (code bug): the spec says a missing `description` attribute is turned
into the empty string inside `description()`, because the `NoValue` raised
by the string-attribute lookup is caught there. The code instead catches
`KeyError`, which `_get_str_attr` never lets out (it converts the trie
`KeyError` into `NoValue`, which is not a `KeyError`): evaluated on a taxon
with no indexed description, `description()` raises `NoValue` rather than
returning the empty string. -/
theorem description_absent_raises :
    description emptyAttrDb 123 = .error .NoValue ∧
      description emptyAttrDb 123 ≠ .ok [] := by
  decide

/-- C2 (code bug): the claim (and the method's own docstring) say `parent`
is `None` exactly at the root, tax_id 1; but the code tests
`self.tax_id == 0`. On a well-formed table whose root record stores parent
pointer 1, the root's `parent` is the root taxon itself, not `None`. -/
theorem parent_of_root_is_root :
    Taxon.new rootTaxaDb 1 = .ok ⟨1, 1⟩ ∧
      Taxon.parentOf rootTaxaDb ⟨1, 1⟩ = .ok (some ⟨1, 1⟩) ∧
      Taxon.parentOf rootTaxaDb ⟨1, 1⟩ ≠ .ok none := by
  decide

set_option maxRecDepth 4000 in
/-- C3 (counterexample): the claim says `lineage()` never executes more than
128 parent steps and fails after 128 steps without reaching the root. On a
linear chain starting at tax_id 131, the walk is not finished after 128
iterations, yet with 130 iterations it returns the full 131-element lineage
normally — no error of any kind is raised at the 128-step mark. -/
theorem lineage_exceeds_128_steps :
    lineage (parentPtr chainTaxa) 128 131 = none ∧
      (lineage (parentPtr chainTaxa) 130 131).map List.length = some 131 := by
  decide

/-- C3 (amended): `lineage()` has no step bound: on a malformed parent cycle
it never returns (for every iteration budget the loop is still running),
and on a well-formed chain it runs for as many steps as the chain is long —
a taxon at depth t is returned as a full t-element lineage after t - 1
parent steps, however large t is. No `CorruptIndex` error exists in the
code. -/
theorem lineage_unbounded_walk :
    (∀ fuel, lineage (parentPtr cycTaxa) fuel 2 = none) ∧
    (∀ t, 1 ≤ t → ∀ fuel, t - 1 ≤ fuel →
      ∃ l, lineage (parentPtr chainTaxa) fuel t = some l ∧ l.length = t) :=
  ⟨fun fuel => (lineage_cyc fuel).1, lineage_chain⟩

/-- Witness for C3 (amended): the cyclic walk from tax_id 2 is still running
after 200 iterations, and the chain walk from tax_id 131 returns a
131-element lineage. -/
theorem lineage_unbounded_walk_witness :
    lineage (parentPtr cycTaxa) 200 2 = none ∧
      (1 ≤ 131 ∧ 131 - 1 ≤ 130 ∧
        ∃ l, lineage (parentPtr chainTaxa) 130 131 = some l ∧ l.length = 131) :=
  ⟨lineage_unbounded_walk.1 200, by decide, by decide,
    lineage_unbounded_walk.2 131 (by decide) 130 (by decide)⟩

/-- C4 (counterexample): packing is not idempotent — on
`"NC_000913.1.1"` one application yields `"NC000913.1"` and a second
application strips again to `"NC000913"` — and the three spellings
`"NC_000913.3"`, `"NC_000913"`, `"NC0009133"` pack to three pairwise
distinct keys (only a trailing `.1` is stripped, so `.3` survives). -/
theorem pack_id_not_idempotent :
    pack_id (pack_id "NC_000913.1.1".toList) ≠ pack_id "NC_000913.1.1".toList ∧
      pack_id "NC_000913.3".toList ≠ pack_id "NC_000913".toList ∧
      pack_id "NC_000913".toList ≠ pack_id "NC0009133".toList ∧
      pack_id "NC_000913.3".toList ≠ pack_id "NC0009133".toList := by
  decide

/-- C4 (amended): packing is idempotent on every accession id whose packed
form does not itself end in `".1"` (`pack(pack(x)) == pack(x)` then), and
the spellings `"NC_000913.1"` and `"NC000913"` pack to the same key; the
spellings `"NC_000913.3"`, `"NC_000913"` and `"NC0009133"` pack to three
pairwise distinct keys, so they do not resolve identically. -/
theorem pack_id_conditional_idem :
    (∀ s : List Char, pyEndsWith (pack_id s) ['.', '1'] = false →
        pack_id (pack_id s) = pack_id s) ∧
    pack_id "NC_000913.1".toList = pack_id "NC000913".toList ∧
    pack_id "NC_000913.3".toList ≠ pack_id "NC_000913".toList ∧
    pack_id "NC_000913".toList ≠ pack_id "NC0009133".toList ∧
    pack_id "NC_000913.3".toList ≠ pack_id "NC0009133".toList :=
  ⟨pack_id_idem_aux, by decide, by decide, by decide, by decide⟩

/-- Witness for C4 (amended): `"NC_000913.3"` packs to `"NC000913.3"`, which
does not end in `".1"`, and repacking it is the identity. -/
theorem pack_id_conditional_idem_witness :
    pyEndsWith (pack_id "NC_000913.3".toList) ['.', '1'] = false ∧
      pack_id (pack_id "NC_000913.3".toList) = pack_id "NC_000913.3".toList :=
  ⟨by decide, pack_id_conditional_idem.1 _ (by decide)⟩

/-- C5: whenever the lineage walk over a taxa table returns a list, that
list starts with the queried tax_id, ends with tax_id 1, and every
consecutive pair (a, b) satisfies "a's stored parent pointer is b". -/
theorem lineage_self_to_root_chain (taxa : TaxaDb) (fuel T : Nat) (l : List Nat)
    (h : lineage (parentPtr taxa) fuel T = some l) :
    l.head? = some T ∧ l.getLast? = some 1 ∧
      List.Chain' (fun a b => parentPtr taxa a = some b) l :=
  lineage_walk_spec (parentPtr taxa) fuel T l h

/-- Witness for C5: on the table 5 → 3 → 1 the walk from 5 returns
[5, 3, 1], which starts at 5, ends at 1, and is parent-linked. -/
theorem lineage_self_to_root_chain_witness :
    lineage (parentPtr sampleTaxa) 10 5 = some [5, 3, 1] ∧
      ([5, 3, 1].head? = some 5 ∧ [5, 3, 1].getLast? = some 1 ∧
        List.Chain' (fun a b => parentPtr sampleTaxa a = some b) [5, 3, 1]) :=
  ⟨by decide, lineage_self_to_root_chain sampleTaxa 10 5 [5, 3, 1] (by decide)⟩

/-- C6 (counterexample): for a taxon with no indexed `host` attribute,
`host()` does not return the empty list — it raises `NoValue`, because
`Taxon.host` calls `_get_str_attr("host")` with no exception handling. -/
theorem host_absent_not_empty_list :
    host emptyAttrDb 123 = .error .NoValue ∧
      host emptyAttrDb 123 ≠ .ok [] := by
  decide

/-- C6 (amended): for a taxon with no indexed `host` attribute, `host()`
raises `NoValue`; for a taxon whose attribute lookup succeeds it returns
the comma-split list of host descriptors. -/
theorem host_raises_or_splits (db : StrAttrDb) (tid : Nat) :
    (db.pos tid = none → host db tid = .error .NoValue) ∧
    (∀ s, get_str_attr db tid = .ok s → host db tid = .ok (s.splitOn ',')) := by
  constructor
  · intro h
    simp only [host, get_str_attr, h]
    rfl
  · intro s h
    simp only [host, h]
    rfl

/-- Witness for C6 (amended): the empty database raises `NoValue` at taxon
123; the database holding `"bacteria,vertebrates"` at taxon 7 yields the
two-element split. -/
theorem host_raises_or_splits_witness :
    (host emptyAttrDb 123 = .error .NoValue) ∧
      (get_str_attr hostAttrDb 7 = .ok "bacteria,vertebrates".toList ∧
        host hostAttrDb 7 = .ok (("bacteria,vertebrates".toList).splitOn ',') ∧
        ("bacteria,vertebrates".toList).splitOn ',' = ["bacteria".toList, "vertebrates".toList]) :=
  ⟨(host_raises_or_splits emptyAttrDb 123).1 rfl,
    by decide,
    (host_raises_or_splits hostAttrDb 7).2 "bacteria,vertebrates".toList (by decide),
    by decide⟩

/-- C7: NcbiNa2 round-trip — for every base sequence B over A, C, G, T,
packing B four bases per byte (most-significant pair first, 0=A, 1=C, 2=G,
3=T, final byte padded) and feeding the bytes, under any chunking, to a
decoder constructed with length |B| reproduces exactly B: the padding bases
are cut off by the length truncation. -/
theorem ncbi_na2_roundtrip (B : List Char) (hB : B.all isBase = true)
    (chunks : List (List Nat)) (hchunks : chunks.flatten = encode B) :
    (runDecoder (NcbiNa2Decoder.init B.length) chunks).2 = B := by
  obtain ⟨h1, -, -, -⟩ :=
    runDecoder_spec chunks (NcbiNa2Decoder.init B.length) (Nat.zero_le _)
  rw [h1, hchunks, flatMap_encode B hB]
  show List.take (B.length - 0) _ = B
  rw [Nat.sub_zero]
  exact List.take_left B (List.replicate ((4 - B.length % 4) % 4) 'A')

/-- Witness for C7: "ACGTG" encodes to the bytes [27, 128]; decoding them in
two chunks with declared length 5 returns exactly "ACGTG". -/
theorem ncbi_na2_roundtrip_witness :
    (['A', 'C', 'G', 'T', 'G'].all isBase = true) ∧
      ([[27], [128]].flatten = encode ['A', 'C', 'G', 'T', 'G']) ∧
      (runDecoder (NcbiNa2Decoder.init 5) [[27], [128]]).2 = ['A', 'C', 'G', 'T', 'G'] :=
  ⟨by decide, by decide,
    ncbi_na2_roundtrip ['A', 'C', 'G', 'T', 'G'] (by decide) [[27], [128]] (by decide)⟩

/-- C8: for a decoder constructed with any length L, after any sequence of
`decompress(chunk)` calls the `bases_seen` counter equals the total number
of output bytes produced and never exceeds L (each call truncates its
output so the cumulative total stays within L), and `flush()` returns the
empty byte string. -/
theorem decoder_bases_seen_invariant (L : Nat) (chunks : List (List Nat)) :
    (runDecoder (NcbiNa2Decoder.init L) chunks).1.bases_seen =
        ((runDecoder (NcbiNa2Decoder.init L) chunks).2).length ∧
    (runDecoder (NcbiNa2Decoder.init L) chunks).1.bases_seen ≤ L ∧
    NcbiNa2Decoder.flush ((runDecoder (NcbiNa2Decoder.init L) chunks).1) = [] := by
  obtain ⟨-, -, h3, h4⟩ := runDecoder_spec chunks (NcbiNa2Decoder.init L) (Nat.zero_le _)
  have hb : (NcbiNa2Decoder.init L).bases_seen = 0 := rfl
  have hl : (NcbiNa2Decoder.init L).length = L := rfl
  refine ⟨by omega, by omega, rfl⟩

/-- C9: the HTTP Range header built by `get_from_s3` is exactly
`bytes=<offset>-<offset + length/4>` with floor division, matching the
spec's description of the inclusive byte range. -/
theorem range_header_matches_spec (db_offset length : Nat) :
    get_from_s3_range_header db_offset length = spec_range_header db_offset length := rfl

/-- C10 (counterexample): the claim's example is wrong — `"NC_000913"` and
`"NC0009133"` do *not* pack to the same trie key (packing only removes
underscores here, it appends nothing), so they do not resolve to the same
record. -/
theorem accession_example_packs_differ :
    pack_id "NC_000913".toList ≠ pack_id "NC0009133".toList := by
  decide

/-- C10 (amended): `Accession.__eq__` compares the raw accession_id string
as constructed, not the packed key: `Accession(a) == Accession(b)` holds
iff `a == b`, so two accessions that pack to the same trie key and resolve
to the same record — e.g. `"NC_000913.1"` and `"NC000913"` — compare
unequal. -/
theorem accession_eq_compares_raw_id :
    (∀ a b : List Char, Accession.eq (Accession.new a) (Accession.new b) = true ↔ a = b) ∧
    pack_id "NC_000913.1".toList = pack_id "NC000913".toList ∧
    Accession.eq (Accession.new "NC_000913.1".toList) (Accession.new "NC000913".toList) = false := by
  refine ⟨fun a b => ?_, by decide, by decide⟩
  simp [Accession.eq, Accession.new]

end Taxoniq
